import Mathlib

/-!
Verification of the documentation-synthesis core of the generator-cli
repository (`DocumentGenerationService` in the document-generation service
module, types from the shared types module).

Embedding conventions:
* JavaScript objects / `Record<string, T>` become ordered association lists
  `List (String × T)`; key update (`obj[k] = v`, `Object.assign`) is `setKey` /
  `assignAll`, which mirror JS semantics (update-in-place keeps the first
  position of the key, new keys append; later writes overwrite).
* Optional / possibly-`undefined` fields become `Option`.  JS string
  truthiness (`s || fallback` treats `""` as absent) is modelled by `jsStr` /
  `opIdOpt`.
* The source's schema-property extraction recurses unboundedly (the spec notes
  it diverges on cyclic schema graphs); the embedding adds an explicit fuel
  parameter.  On any input where the source terminates, every sufficiently
  large fuel computes the source's value; fuel exhaustion returns the
  degenerate empty result.
* `JSON.stringify` serialization of the `properties` / `required` /
  `pathParams` record fields is mechanical I/O and is not modelled: the
  embedded records hold the structured values that the source serializes.
* The `enum` / `example` schema payloads (TS `any`) are carried as strings;
  the service only moves them around, never inspects them.
-/

/-- Association-list lookup, mirroring JS property access `m[k]` (first
matching key wins; keys are unique in genuine JS objects). -/
def lookupStr {α : Type} : List (String × α) → String → Option α
  | [], _ => none
  | p :: t, k => if p.1 == k then some p.2 else lookupStr t k

/-- JS property write `m[k] = v`: if the key is present, overwrite in place
(keeping its position); otherwise append the new key. -/
def setKey {α : Type} (m : List (String × α)) (k : String) (v : α) : List (String × α) :=
  if m.any (fun p => p.1 == k) then
    m.map (fun p => if p.1 == k then (k, v) else p)
  else
    m ++ [(k, v)]

/-- JS `Object.assign(m, n)`: write every entry of `n` into `m`, in order. -/
def assignAll {α : Type} (m n : List (String × α)) : List (String × α) :=
  n.foldl (fun acc p => setKey acc p.1 p.2) m

/-- Last-occurrence lookup: the value the key would have after all writes of
the list are applied in order (specification device for `assignAll`). -/
def lastLookup {α : Type} : List (String × α) → String → Option α
  | [], _ => none
  | p :: t, k => (lastLookup t k).or (if k = p.1 then some p.2 else none)

/-- Keys of an association list. -/
def keysOf {α : Type} (m : List (String × α)) : List String :=
  m.map (fun p => p.1)

/-- JS `[...new Set(l)]`: deduplicate keeping the first occurrence of each
element, threading the set of already-seen elements. -/
def dedupFirstAux (seen : List String) : List String → List String
  | [] => []
  | x :: t => if seen.contains x then dedupFirstAux seen t else x :: dedupFirstAux (x :: seen) t

/-- JS `[...new Set(l)]` with an empty initial seen-set. -/
def dedupFirst (l : List String) : List String := dedupFirstAux [] l

/-- Lower-case a string character by character (JS toLowerCase on ASCII
content; the library's String.toLower maps the same Char.toLower over the
characters). -/
def lowerStr (s : String) : String := String.mk (s.data.map Char.toLower)

/-- Upper-case a string character by character (JS toUpperCase on ASCII
content). -/
def upperStr (s : String) : String := String.mk (s.data.map Char.toUpper)

/-- The string ends with the letter s. -/
def endsWithS (s : String) : Bool :=
  match s.data.getLast? with
  | some c => c == 's'
  | none => false

/-- The string starts with the given character (JS startsWith with a
one-character argument). -/
def strStartsWithChar (s : String) (c : Char) : Bool :=
  match s.data with
  | x :: _ => x == c
  | [] => false

/-- Split on slash characters (the reference-pointer split); first argument
is the current segment, reversed. -/
def splitSlashAux : List Char → List Char → List String
  | cur, [] => [String.mk cur.reverse]
  | cur, '/' :: rest => String.mk cur.reverse :: splitSlashAux [] rest
  | cur, c :: rest => splitSlashAux (c :: cur) rest

/-- ASCII alphanumeric test, the complement of the source's strip pattern
(the regex class of characters outside a-z, A-Z, 0-9). -/
def isAlnumChar (c : Char) : Bool := c.isAlpha || c.isDigit

/-- Lower-case letter or digit (left side of the change-case split boundary
between a lower/digit character and an upper-case character). -/
def isLowerOrDigit (c : Char) : Bool := c.isLower || c.isDigit

/-- Word splitter of the change-case library (used by its `camelCase` and
`pascalCase`): words are separated by non-alphanumeric characters, by a
lower-case-or-digit → upper-case boundary, and before the last upper-case
letter of an upper-case run followed by a lower-case letter.  First argument
is the current word, reversed. -/
def ccSplitAux : List Char → List Char → List (List Char)
  | cur, [] => if cur.isEmpty then [] else [cur.reverse]
  | cur, c :: rest =>
    if !isAlnumChar c then
      if cur.isEmpty then ccSplitAux [] rest else cur.reverse :: ccSplitAux [] rest
    else
      match cur with
      | [] => ccSplitAux [c] rest
      | p :: _ =>
        if isLowerOrDigit p && c.isUpper then
          cur.reverse :: ccSplitAux [c] rest
        else if p.isUpper && c.isUpper && (match rest with | c2 :: _ => c2.isLower | [] => false) then
          cur.reverse :: ccSplitAux [c] rest
        else
          ccSplitAux (c :: cur) rest

/-- Split a string into change-case words. -/
def ccWords (s : String) : List (List Char) := ccSplitAux [] s.data

/-- change-case word transform for Pascal positions: capitalize the first
character and lower the rest; a word starting with a digit at a non-initial
index is prefixed with an underscore. -/
def pascalTransformWord (idx : Nat) (w : List Char) : List Char :=
  match w with
  | [] => []
  | c :: cs =>
    if idx > 0 && c.isDigit then '_' :: c :: cs.map Char.toLower
    else c.toUpper :: cs.map Char.toLower

/-- Transform each word with its index and concatenate. -/
def joinWordsAux (f : Nat → List Char → List Char) (idx : Nat) : List (List Char) → List Char
  | [] => []
  | w :: ws => f idx w ++ joinWordsAux f (idx + 1) ws

/-- change-case `pascalCase`. -/
def pascalCase (s : String) : String :=
  String.mk (joinWordsAux pascalTransformWord 0 (ccWords s))

/-- change-case `camelCase`: like `pascalCase` but the first word is fully
lower-cased. -/
def camelCase (s : String) : String :=
  String.mk (joinWordsAux
    (fun idx w => if idx == 0 then w.map Char.toLower else pascalTransformWord idx w)
    0 (ccWords s))

example : camelCase "get_items" = "getItems" := rfl
example : pascalCase "getItems" = "GetItems" := rfl
example : pascalCase "unknown" = "Unknown" := rfl
example : camelCase "get_itemsById" = "getItemsById" := rfl

/-! ## Data model (mirroring the shared types module) -/

/-- SwaggerSchema (recursive, hence an inductive).  Fields mirror the TS
interface, restricted to the fields the documentation service reads
(`type`, `format`, `properties`, `required`, `items`, `allOf`, `oneOf`,
`anyOf`, `$ref`, `enum`, `description`, `example`); the remaining validation
metadata fields (`default`, `minimum`, …) are never read by the service. -/
inductive SwaggerSchema : Type where
  | mk
    (type : Option String)
    (format : Option String)
    (properties : Option (List (String × SwaggerSchema)))
    (required : Option (List String))
    (items : Option SwaggerSchema)
    (allOf : Option (List SwaggerSchema))
    (oneOf : Option (List SwaggerSchema))
    (anyOf : Option (List SwaggerSchema))
    (ref : Option String)
    (enum : Option (List String))
    (description : Option String)
    (exampleVal : Option String)

/-- The `type` field. -/
def SwaggerSchema.type : SwaggerSchema → Option String
  | .mk t _ _ _ _ _ _ _ _ _ _ _ => t

/-- The `format` field. -/
def SwaggerSchema.format : SwaggerSchema → Option String
  | .mk _ f _ _ _ _ _ _ _ _ _ _ => f

/-- The `properties` field. -/
def SwaggerSchema.properties : SwaggerSchema → Option (List (String × SwaggerSchema))
  | .mk _ _ p _ _ _ _ _ _ _ _ _ => p

/-- The `required` field. -/
def SwaggerSchema.required : SwaggerSchema → Option (List String)
  | .mk _ _ _ r _ _ _ _ _ _ _ _ => r

/-- The `items` field. -/
def SwaggerSchema.items : SwaggerSchema → Option SwaggerSchema
  | .mk _ _ _ _ i _ _ _ _ _ _ _ => i

/-- The `allOf` field. -/
def SwaggerSchema.allOf : SwaggerSchema → Option (List SwaggerSchema)
  | .mk _ _ _ _ _ a _ _ _ _ _ _ => a

/-- The `$ref` field. -/
def SwaggerSchema.ref : SwaggerSchema → Option String
  | .mk _ _ _ _ _ _ _ _ r _ _ _ => r

/-- The `enum` field. -/
def SwaggerSchema.enum : SwaggerSchema → Option (List String)
  | .mk _ _ _ _ _ _ _ _ _ e _ _ => e

/-- The `description` field. -/
def SwaggerSchema.description : SwaggerSchema → Option String
  | .mk _ _ _ _ _ _ _ _ _ _ d _ => d

/-- The `example` field (named `exampleVal` since `example` is a Lean
keyword). -/
def SwaggerSchema.exampleVal : SwaggerSchema → Option String
  | .mk _ _ _ _ _ _ _ _ _ _ _ e => e

/-- Schema with every field absent. -/
def SwaggerSchema.empty : SwaggerSchema :=
  .mk none none none none none none none none none none none none

/-- Schema carrying only a `type`. -/
def typeSchema (t : String) : SwaggerSchema :=
  .mk (some t) none none none none none none none none none none none

/-- Schema carrying only a `$ref`. -/
def refSchema (r : String) : SwaggerSchema :=
  .mk none none none none none none none none (some r) none none none

/-- Object schema carrying `properties` and `required`. -/
def objSchema (props : List (String × SwaggerSchema)) (req : Option (List String)) : SwaggerSchema :=
  .mk none none (some props) req none none none none none none none none

/-- Schema carrying only an `allOf` list. -/
def allOfSchema (l : List SwaggerSchema) : SwaggerSchema :=
  .mk none none none none none (some l) none none none none none none

/-- Array schema carrying `items`. -/
def arraySchema (it : SwaggerSchema) : SwaggerSchema :=
  .mk (some "array") none none none (some it) none none none none none none none

/-- SwaggerParameter.  `paramIn` embeds the TS field `in` (a reserved word in
Lean); `type2` / `format` are the OpenAPI 2.0 inline style, `schema` the 3.x
style. -/
structure SwaggerParameter : Type where
  name : String
  paramIn : String
  required : Option Bool := none
  schema : Option SwaggerSchema := none
  type2 : Option String := none
  format : Option String := none
  description : Option String := none

/-- One media-type entry of a `content` record (`{ schema, examples }`); the
service only ever reads `schema`, guarded by a truthiness check. -/
structure MediaObject : Type where
  schema : Option SwaggerSchema := none

/-- SwaggerRequestBody. -/
structure SwaggerRequestBody : Type where
  required : Option Bool := none
  content : List (String × MediaObject)
  description : Option String := none

/-- SwaggerResponse; `schema` is the OpenAPI 2.0 inline response schema. -/
structure SwaggerResponse : Type where
  description : String
  content : Option (List (String × MediaObject)) := none
  schema : Option SwaggerSchema := none

/-- SwaggerOperation.  The `responses` record keys are status-code strings;
JS iterates integer-like keys in ascending numeric order, so the embedded
list is taken in that iteration order (no claim below depends on it). -/
structure SwaggerOperation : Type where
  operationId : Option String := none
  summary : Option String := none
  description : Option String := none
  tags : Option (List String) := none
  parameters : Option (List SwaggerParameter) := none
  requestBody : Option SwaggerRequestBody := none
  responses : List (String × SwaggerResponse)
  security : Option (List (List (String × List String))) := none

/-- The `components` table (only `schemas` is read by the service). -/
structure SwaggerComponents : Type where
  schemas : Option (List (String × SwaggerSchema)) := none

/-- SwaggerSpec, restricted to the fields the documentation service reads:
`paths`, `components.schemas` and the OpenAPI 2.0 `definitions`. -/
structure SwaggerSpec : Type where
  paths : List (String × List (String × SwaggerOperation))
  components : Option SwaggerComponents := none
  definitions : Option (List (String × SwaggerSchema)) := none

/-- Output shape of `convertSchemaToProperty` (a dynamically shaped JS object
in the source, here a tagged union of its three shapes: array property,
object property, primitive property). -/
inductive OutProp : Type where
  | arr (items : OutProp) (description : Option String)
  | obj (properties : List (String × OutProp)) (required : List String) (description : Option String)
  | prim (type : String) (description : Option String) (enum : Option (List String)) (exampleVal : Option String)

/-- One entry of the serialized `pathParams` map of an API record. -/
structure PathParamEntry : Type where
  type : String
  required : Bool
  description : Option String := none
deriving DecidableEq

/-- ApiDocumentation record.  `pathParams` holds the structured map that the
source serializes with JSON.stringify. -/
structure ApiDocumentation : Type where
  sNo : Nat
  endpoint : String
  method : String
  tag : String
  operationId : String
  summary : String
  pathParams : Option (List (String × PathParamEntry))
  queryParamsRef : Option String
  requestBodyRef : Option String
  responseBodyRef : Option String
  isPaginated : Bool
  requiresAuth : Bool
  businessPurpose : String

/-- ModelDocumentation record.  `properties` and `required` hold the
structured values that the source serializes with JSON.stringify (`required`
is absent when the collected list is empty). -/
structure ModelDocumentation : Type where
  sNo : Nat
  modelName : String
  properties : List (String × OutProp)
  required : Option (List String)
  description : String
  usedInOperations : Option String

/-! ## Service functions (mirroring DocumentGenerationService) -/

/-- JS string truthiness: the empty string counts as absent in `s || d`. -/
def jsStr (o : Option String) : Option String :=
  match o with
  | some "" => none
  | some s => some s
  | none => none

/-- The operation's declared operationId under JS truthiness (used by the
source both in `operation.operationId || fallback` and in
`if (!operation.operationId)` guards). -/
def opIdOpt (op : SwaggerOperation) : Option String := jsStr op.operationId

/-- mapSwaggerTypeToTypeScript: switch over the schema type string. -/
def mapSwaggerTypeToTypeScript (type : String) (format : Option String) : String :=
  if type == "integer" || type == "number" then "number"
  else if type == "boolean" then "boolean"
  else if type == "string" then
    if format == some "date" || format == some "date-time" then "Date" else "string"
  else if type == "array" then "array"
  else if type == "object" then "object"
  else "any"

/-- mapSwaggerTypeToTypeScript applied to a possibly-undefined type (a JS
switch on `undefined` falls through to the default branch). -/
def mapSwaggerTypeOpt (type : Option String) (format : Option String) : String :=
  match type with
  | some t => mapSwaggerTypeToTypeScript t format
  | none => "any"

/-- getParameterType: OpenAPI 3.x `schema` sub-object if present, else the
OpenAPI 2.0 inline `type`/`format`. -/
def getParameterType (p : SwaggerParameter) : String :=
  match p.schema with
  | some s => mapSwaggerTypeOpt s.type s.format
  | none => mapSwaggerTypeOpt p.type2 p.format

/-- Remove the first occurrence of the two-character sequence of a hash mark
followed by a slash (JS `ref.replace` with a plain-string pattern replaces
only the first occurrence). -/
def stripHashSlashAux : List Char → List Char
  | [] => []
  | '#' :: '/' :: rest => rest
  | c :: rest => c :: stripHashSlashAux rest

/-- Reference-pointer segments: strip the leading hash-slash, split on
slashes. -/
def refSegments (r : String) : List String :=
  splitSlashAux [] (stripHashSlashAux r.data)

/-- Walk of the document's schema tables by remaining segments: a pointer
addressing a named entry of the schemas table. -/
def walkTable (tbl : List (String × SwaggerSchema)) : List String → Option SwaggerSchema
  | [name] => lookupStr tbl name
  | _ => none

/-- Segment-by-segment walk from the document root, mirroring the source's
dynamic `resolved = resolved[segment]` loop over the embedded document shape:
the schema-valued locations reachable in the embedded `SwaggerSpec` are
`components/schemas/<name>` and `definitions/<name>`; any other pointer hits
a missing segment and yields nothing (the loop breaks on `undefined`). -/
def walkSpec (api : SwaggerSpec) : List String → Option SwaggerSchema
  | "components" :: rest =>
    match api.components with
    | none => none
    | some comps =>
      match rest with
      | "schemas" :: rest2 =>
        match comps.schemas with
        | none => none
        | some tbl => walkTable tbl rest2
      | _ => none
  | "definitions" :: rest =>
    match api.definitions with
    | none => none
    | some tbl => walkTable tbl rest
  | _ => none

/-- resolveSchema: if the node carries a reference pointer, walk it from the
document root and return the node found; on any missing segment (or no
pointer) return the node unchanged. -/
def resolveSchema (api : SwaggerSpec) (schema : SwaggerSchema) : SwaggerSchema :=
  match schema.ref with
  | none => schema
  | some r => (walkSpec api (refSegments r)).getD schema

mutual

/-- extractSchemaProperties: declared properties converted one by one, own
required list, then each `allOf` entry resolved, recursively extracted and
merged into the accumulator (later entries overwrite same-named properties;
required names are concatenated); the required list is returned deduplicated
(first occurrence kept).  `oneOf`/`anyOf` are not read.  The fuel argument
bounds the recursion depth of the otherwise-unbounded source recursion. -/
def extractSchemaProperties : Nat → SwaggerSpec → SwaggerSchema → List (String × OutProp) × List String
  | 0, _, _ => ([], [])
  | Nat.succ fuel, api, schema =>
    let props0 : List (String × OutProp) :=
      match schema.properties with
      | none => []
      | some ps => ps.foldl (fun acc p => setKey acc p.1 (convertSchemaToProperty fuel api p.2)) []
    let req0 : List String :=
      match schema.required with
      | none => []
      | some r => r
    let merged : List (String × OutProp) × List String :=
      match schema.allOf with
      | none => (props0, req0)
      | some l =>
        l.foldl
          (fun acc sub =>
            let subPR := extractSchemaProperties fuel api (resolveSchema api sub)
            (assignAll acc.1 subPR.1, acc.2 ++ subPR.2))
          (props0, req0)
    (merged.1, dedupFirst merged.2)

/-- convertSchemaToProperty: resolve first, then array schemas become array
properties (items converted recursively, defaulting to a generic property),
object schemas become nested property maps, and everything else a primitive
property through the type mapper.  Fuel exhaustion yields the generic
property. -/
def convertSchemaToProperty : Nat → SwaggerSpec → SwaggerSchema → OutProp
  | 0, _, _ => OutProp.prim "any" none none none
  | Nat.succ fuel, api, schema =>
    let resolved := resolveSchema api schema
    if resolved.type == some "array" then
      OutProp.arr
        (match resolved.items with
         | some it => convertSchemaToProperty fuel api it
         | none => OutProp.prim "any" none none none)
        resolved.description
    else if resolved.type == some "object" then
      let subPR := extractSchemaProperties fuel api resolved
      OutProp.obj subPR.1 subPR.2 resolved.description
    else
      OutProp.prim (mapSwaggerTypeOpt resolved.type resolved.format)
        resolved.description resolved.enum resolved.exampleVal

end

/-- Split a character list at the first closing brace: returns the content
before it (which therefore contains no closing brace) and the rest after. -/
def splitAtCloseBrace : List Char → Option (List Char × List Char)
  | [] => none
  | c :: rest =>
    if c = '}' then some ([], rest)
    else
      match splitAtCloseBrace rest with
      | some (content, after) => some (c :: content, after)
      | none => none

/-- Replace every brace-delimited nonempty segment by the two characters of
the word By, mirroring the source's global regex replacement on the path
(a brace pair with empty content does not match and is left alone).  The
fuel argument (instantiated with the list length) only serves structural
termination; each step consumes at least one character. -/
def replaceBracesFuel : Nat → List Char → List Char
  | 0, l => l
  | Nat.succ _, [] => []
  | Nat.succ fuel, c :: rest =>
    if c = '{' then
      match splitAtCloseBrace rest with
      | some (content, after) =>
        if content.isEmpty then c :: replaceBracesFuel fuel rest
        else 'B' :: 'y' :: replaceBracesFuel fuel after
      | none => c :: replaceBracesFuel fuel rest
    else c :: replaceBracesFuel fuel rest

/-- Replace brace-delimited path segments by the word By. -/
def replaceBraces (l : List Char) : List Char := replaceBracesFuel l.length l

/-- True when the character list ends in the two characters of the word By. -/
def endsWithBy (l : List Char) : Bool :=
  match l.reverse with
  | 'y' :: 'B' :: _ => true
  | _ => false

/-- generateOperationId: brace segments become By, non-alphanumerics are
stripped, a trailing By becomes ById, and the method-underscore-path string
is camel-cased. -/
def generateOperationId (method path : String) : String :=
  let cleaned := (replaceBraces path.data).filter isAlnumChar
  let cleaned2 := if endsWithBy cleaned then cleaned ++ ['I', 'd'] else cleaned
  camelCase (method ++ "_" ++ String.mk cleaned2)

example : generateOperationId "get" "/items" = "getItems" := rfl
example : generateOperationId "get" "/items/{id}" = "getItemsById" := rfl

/-- Names of the brace-delimited nonempty segments of a path, in order,
mirroring the source's global regex match (same scan as `replaceBraces`). -/
def braceNamesFuel : Nat → List Char → List String
  | 0, _ => []
  | Nat.succ _, [] => []
  | Nat.succ fuel, c :: rest =>
    if c = '{' then
      match splitAtCloseBrace rest with
      | some (content, after) =>
        if content.isEmpty then braceNamesFuel fuel rest
        else String.mk content :: braceNamesFuel fuel after
      | none => braceNamesFuel fuel rest
    else braceNamesFuel fuel rest

/-- Brace-delimited parameter names of a path. -/
def pathBraceNames (path : String) : List String :=
  braceNamesFuel path.data.length path.data

example : pathBraceNames "/items/{id}/sub/{subId}" = ["id", "subId"] := rfl

/-- hasQueryParams: some declared parameter has the query location. -/
def hasQueryParams (op : SwaggerOperation) : Bool :=
  match op.parameters with
  | some ps => ps.any (fun p => p.paramIn == "query")
  | none => false

/-- The schema the source reads off a response: the `application/json`
content schema when the whole chain is present, else the OpenAPI 2.0 inline
response schema. -/
def respSchema (r : SwaggerResponse) : Option SwaggerSchema :=
  match r.content with
  | some c =>
    match lookupStr c "application/json" with
    | some m =>
      match m.schema with
      | some s => some s
      | none => r.schema
    | none => r.schema
  | none => r.schema

/-- hasResponseBody: some response (any status) carries a JSON content schema
or an inline schema. -/
def hasResponseBody (op : SwaggerOperation) : Bool :=
  op.responses.any (fun pr => (respSchema pr.2).isSome)

/-- The source's pagination parameter-name list (note the mixed-case entries,
compared against lower-cased parameter names). -/
def paginationParamNames : List String :=
  ["page", "offset", "limit", "size", "pageSize", "pageNumber"]

/-- The source's pagination response-field list. -/
def paginationFields : List String :=
  ["totalCount", "totalPages", "page", "pageSize", "hasNext", "hasPrevious"]

/-- isPaginatedSchema: some top-level property name, lower-cased, equals a
lower-cased pagination field name. -/
def isPaginatedSchema (s : Option SwaggerSchema) : Bool :=
  match s with
  | none => false
  | some sc =>
    match sc.properties with
    | none => false
    | some props =>
      let schemaFields := props.map (fun p => lowerStr p.1)
      paginationFields.any (fun f => schemaFields.contains (lowerStr f))

/-- detectPagination: a lower-cased parameter name is a member of the
pagination parameter-name list, or some response (any status) has a
pagination-shaped schema. -/
def detectPagination (op : SwaggerOperation) : Bool :=
  let hasPageParams :=
    match op.parameters with
    | some ps => ps.any (fun p => paginationParamNames.contains (lowerStr p.name))
    | none => false
  let hasPaginatedResponse := op.responses.any (fun pr => isPaginatedSchema (respSchema pr.2))
  hasPageParams || hasPaginatedResponse

/-- Search the property map in the fixed priority order for the first
array-typed property with items; its resolved items schema is the record
schema. -/
def firstArrayItems (api : SwaggerSpec) (props : List (String × SwaggerSchema)) : List String → Option SwaggerSchema
  | [] => none
  | n :: rest =>
    match lookupStr props n with
    | some p =>
      match p.items with
      | some it =>
        if p.type == some "array" then some (resolveSchema api it)
        else firstArrayItems api props rest
      | none => firstArrayItems api props rest
    | none => firstArrayItems api props rest

/-- extractRecordSchema: resolve, then search the top-level properties in the
order data, records, items, results. -/
def extractRecordSchema (api : SwaggerSpec) (schema : SwaggerSchema) : Option SwaggerSchema :=
  let resolved := resolveSchema api schema
  match resolved.properties with
  | none => none
  | some props => firstArrayItems api props ["data", "records", "items", "results"]

/-- detectAuthentication: non-empty security-requirement list. -/
def detectAuthentication (op : SwaggerOperation) : Bool :=
  match op.security with
  | some l => !l.isEmpty
  | none => false

/-- getActionFromMethod: action verb from the upper-cased HTTP method. -/
def getActionFromMethod (method : String) : String :=
  let m := upperStr method
  if m == "GET" then "Retrieve"
  else if m == "POST" then "Create"
  else if m == "PUT" then "Update"
  else if m == "PATCH" then "Modify"
  else if m == "DELETE" then "Remove"
  else "Process"

/-- Remove one trailing letter s (the source's singularizing regex). -/
def dropTrailingS (s : String) : String :=
  if endsWithS s then String.mk s.data.dropLast else s

/-- generateBusinessPurpose: explicit description, else decorated summary,
else a sentence from the method action verb and the singularized tag. -/
def generateBusinessPurpose (op : SwaggerOperation) (tag method _path : String) : String :=
  match jsStr op.description with
  | some d => d
  | none =>
    match jsStr op.summary with
    | some sum => sum ++ " - Used for " ++ tag ++ " management in the application"
    | none =>
      getActionFromMethod method ++ " " ++ dropTrailingS tag ++ " data for " ++ tag
        ++ " management functionality"

/-- isValidHttpMethod: the upper-cased key is one of the five verbs. -/
def isValidHttpMethod (m : String) : Bool :=
  (["GET", "POST", "PUT", "PATCH", "DELETE"] : List String).contains (upperStr m)

/-- The entry recorded for one brace-delimited path segment: the matching
declared path parameter's mapped type and description with the source's
`required || true` expression, or the string/required-true fallback when no
declared parameter matches. -/
def pathParamEntryFor (op : SwaggerOperation) (n : String) : PathParamEntry :=
  match (op.parameters.getD []).find? (fun p => p.name == n && p.paramIn == "path") with
  | some p =>
    { type := getParameterType p,
      required := (p.required.getD false || true),
      description := p.description }
  | none => { type := "string", required := true, description := none }

/-- extractPathParameters: nothing when the path has no brace segments, else
one entry per segment name. -/
def extractPathParameters (path : String) (op : SwaggerOperation) : Option (List (String × PathParamEntry)) :=
  let names := pathBraceNames path
  if names.isEmpty then none
  else
    let m := names.foldl (fun acc n => setKey acc n (pathParamEntryFor op n)) []
    if m.isEmpty then none else some m

/-- createApiDocumentation: one API record for a path-method pair. -/
def createApiDocumentation (sNo : Nat) (path method : String) (op : SwaggerOperation)
    (_api : SwaggerSpec) : ApiDocumentation :=
  let tag :=
    match op.tags with
    | some (t :: _) => if t == "" then "default" else t
    | _ => "default"
  let operationId := (opIdOpt op).getD (generateOperationId method path)
  { sNo := sNo,
    endpoint := path,
    method := method,
    tag := tag,
    operationId := operationId,
    summary := (jsStr op.summary).getD (method ++ " " ++ path),
    pathParams := extractPathParameters path op,
    queryParamsRef := if hasQueryParams op then some (pascalCase operationId ++ "QueryParams") else none,
    requestBodyRef := if op.requestBody.isSome then some (pascalCase operationId ++ "InData") else none,
    responseBodyRef := if hasResponseBody op then some (pascalCase operationId ++ "OutData") else none,
    isPaginated := detectPagination op,
    requiresAuth := detectAuthentication op,
    businessPurpose := generateBusinessPurpose op tag method path }

/-- createQueryParamsModel: nothing without query parameters, else one model
with an entry per query parameter and the names of the required ones. -/
def createQueryParamsModel (op : SwaggerOperation) (operationId : String) : Option ModelDocumentation :=
  let queryParams := (op.parameters.getD []).filter (fun p => p.paramIn == "query")
  if queryParams.isEmpty then none
  else
    let properties := queryParams.foldl
      (fun acc p => setKey acc p.name (OutProp.prim (getParameterType p) p.description none none)) []
    let required := (queryParams.filter (fun p => p.required.getD false)).map (fun p => p.name)
    some
      { sNo := 0,
        modelName := pascalCase operationId ++ "QueryParams",
        properties := properties,
        required := if required.isEmpty then none else some required,
        description := "Query parameters for " ++ operationId ++ " operation",
        usedInOperations := some operationId }

/-- createRequestBodyModel: nothing without a request body, a (truthy)
declared operationId, an application-slash-json content entry and a schema
on it; else the extracted body model. -/
def createRequestBodyModel (fuel : Nat) (op : SwaggerOperation) (api : SwaggerSpec) : Option ModelDocumentation :=
  match op.requestBody, opIdOpt op with
  | some rb, some oid =>
    match lookupStr rb.content "application/json" with
    | some m =>
      match m.schema with
      | some sch =>
        let schema := resolveSchema api sch
        let pr := extractSchemaProperties fuel api schema
        some
          { sNo := 0,
            modelName := pascalCase oid ++ "InData",
            properties := pr.1,
            required := if pr.2.isEmpty then none else some pr.2,
            description := "Request body model for " ++ oid ++ " operation",
            usedInOperations := some oid }
      | none => none
    | none => none
  | _, _ => none

/-- createResponseModels: nothing without a (truthy) declared operationId;
else for every success (status starting with the digit 2) response whose
JSON content carries a schema, an OutData model, plus a RecordData model for
the extracted record schema when the response schema is pagination-shaped. -/
def createResponseModels (fuel : Nat) (op : SwaggerOperation) (api : SwaggerSpec) : List ModelDocumentation :=
  match opIdOpt op with
  | none => []
  | some oid =>
    (op.responses.filter (fun pr => strStartsWithChar pr.1 '2')).flatMap (fun pr =>
      match pr.2.content with
      | none => []
      | some c =>
        match lookupStr c "application/json" with
        | none => []
        | some m =>
          match m.schema with
          | none => []
          | some sch0 =>
            let schema := resolveSchema api sch0
            let pr2 := extractSchemaProperties fuel api schema
            let outModel : ModelDocumentation :=
              { sNo := 0,
                modelName := pascalCase oid ++ "OutData",
                properties := pr2.1,
                required := if pr2.2.isEmpty then none else some pr2.2,
                description := "Response model for " ++ oid ++ " operation",
                usedInOperations := some oid }
            if isPaginatedSchema (some schema) then
              match extractRecordSchema api schema with
              | some recordSchema =>
                let rp := extractSchemaProperties fuel api recordSchema
                [outModel,
                 { sNo := 0,
                   modelName := pascalCase oid ++ "RecordData",
                   properties := rp.1,
                   required := if rp.2.isEmpty then none else some rp.2,
                   description := "Record model for " ++ oid ++ " paginated response",
                   usedInOperations := some oid }]
              | none => [outModel]
            else [outModel])

/-- Push a batch of candidate models through the seen-name set: a model whose
name is already seen is dropped, otherwise it is appended and its name
recorded (the source's repeated seen-check-push-add blocks). -/
def pushModels (batch models : List ModelDocumentation) (seen : List String) :
    List ModelDocumentation × List String :=
  match batch with
  | [] => (models, seen)
  | m :: t =>
    if seen.contains m.modelName then pushModels t models seen
    else pushModels t (models ++ [m]) (m.modelName :: seen)

/-- The candidate models of one operation, in the source's push order: the
query-parameters model (note the source's fallback operationId for it is the
literal string unknown, not the synthesized id), then the request-body
model, then the response models. -/
def operationModelBatch (fuel : Nat) (op : SwaggerOperation) (api : SwaggerSpec) : List ModelDocumentation :=
  (if hasQueryParams op then (createQueryParamsModel op ((opIdOpt op).getD "unknown")).toList else [])
    ++ (if op.requestBody.isSome then (createRequestBodyModel fuel op api).toList else [])
    ++ createResponseModels fuel op api

/-- extractModelsFromOperation: the operation's candidate models pushed
through the shared seen-set; returns the newly emitted models and the grown
set (the source mutates the set and returns the new models). -/
def extractModelsFromOperation (fuel : Nat) (op : SwaggerOperation) (api : SwaggerSpec)
    (seen : List String) : List ModelDocumentation × List String :=
  pushModels (operationModelBatch fuel op api) [] seen

/-- The standalone schema table: 3.x components schemas, else 2.0
definitions, else empty. -/
def standaloneSchemas (api : SwaggerSpec) : List (String × SwaggerSchema) :=
  match api.components with
  | some c =>
    match c.schemas with
    | some s => s
    | none => api.definitions.getD []
  | none => api.definitions.getD []

/-- The standalone model produced for one named component schema. -/
def standaloneModel (fuel : Nat) (api : SwaggerSpec) (name : String) (schema : SwaggerSchema) :
    ModelDocumentation :=
  let pr := extractSchemaProperties fuel api schema
  { sNo := 0,
    modelName := pascalCase name ++ "Data",
    properties := pr.1,
    required := if pr.2.isEmpty then none else some pr.2,
    description := (jsStr schema.description).getD (name ++ " entity model"),
    usedInOperations := none }

/-- extractStandaloneModels: every component or definition schema whose
derived name is not already seen. -/
def extractStandaloneModels (fuel : Nat) (api : SwaggerSpec) (seen : List String) :
    List ModelDocumentation × List String :=
  pushModels ((standaloneSchemas api).map (fun p => standaloneModel fuel api p.1 p.2)) [] seen

/-- Assign sequence numbers by final discovery order (the source's forEach
index assignment, one-based). -/
def renumberFrom (i : Nat) : List ModelDocumentation → List ModelDocumentation
  | [] => []
  | m :: t => { m with sNo := i } :: renumberFrom (i + 1) t

/-- Traversal state of the synthesis loop: emitted API records, emitted
models, the seen model-name set and the next API sequence number. -/
structure ExtractState : Type where
  apis : List ApiDocumentation
  models : List ModelDocumentation
  seen : List String
  apiIndex : Nat

/-- One path-method pair of the traversal: ignored unless the method key is a
recognized verb, else one API record plus the operation's new models. -/
def processOperation (fuel : Nat) (api : SwaggerSpec) (path method : String)
    (op : SwaggerOperation) (st : ExtractState) : ExtractState :=
  if isValidHttpMethod method then
    let apiDoc := createApiDocumentation st.apiIndex path method op api
    let res := extractModelsFromOperation fuel op api st.seen
    { apis := st.apis ++ [apiDoc],
      models := st.models ++ res.1,
      seen := res.2,
      apiIndex := st.apiIndex + 1 }
  else st

/-- All method entries of one path table row, in order. -/
def processPath (fuel : Nat) (api : SwaggerSpec) (st : ExtractState)
    (pm : String × List (String × SwaggerOperation)) : ExtractState :=
  pm.2.foldl (fun s mo => processOperation fuel api pm.1 mo.1 mo.2 s) st

/-- extractDocumentationData: walk every path and method, then the standalone
schemas, then assign model sequence numbers; returns the two record
arrays. -/
def extractDocumentationData (fuel : Nat) (api : SwaggerSpec) :
    List ApiDocumentation × List ModelDocumentation :=
  let st := api.paths.foldl (processPath fuel api) ⟨[], [], [], 1⟩
  let res := extractStandaloneModels fuel api st.seen
  (st.apis, renumberFrom 1 (st.models ++ res.1))

/-! ## Concrete specification documents used by the claims -/

/-- Query parameter named page, integer-typed (3.x style). -/
def pageParam : SwaggerParameter :=
  { name := "page", paramIn := "query", schema := some (typeSchema "integer") }

/-- Query parameter named limit, integer-typed (3.x style). -/
def limitParam : SwaggerParameter :=
  { name := "limit", paramIn := "query", schema := some (typeSchema "integer") }

/-- A body-less success response. -/
def okResponse : SwaggerResponse := { description := "ok" }

/-- GET /items operation of claim C1: query parameters page and limit, no
declared operationId. -/
def getItemsOp : SwaggerOperation :=
  { parameters := some [pageParam, limitParam], responses := [("200", okResponse)] }

/-- The one-operation document of claims C1 and C3. -/
def itemsSpec : SwaggerSpec := { paths := [("/items", [("get", getItemsOp)])] }

/-- Operation with no declared operationId and no content (one of the two
colliding operations of claim C4). -/
def bareGetOp : SwaggerOperation := { responses := [("200", okResponse)] }

/-- Document of claim C4: two distinct paths whose synthesized operationIds
coincide (the trailing slash is stripped with every other non-alphanumeric
character). -/
def collidingSpec : SwaggerSpec :=
  { paths := [("/items", [("get", bareGetOp)]), ("/items/", [("get", bareGetOp)])] }

/-- Operation of claim C2 whose single parameter is literally named pageSize
(a name the claim says matches case-insensitively). -/
def pageSizeOp : SwaggerOperation :=
  { parameters := some [{ name := "pageSize", paramIn := "query", schema := some (typeSchema "integer") }],
    responses := [("200", okResponse)] }

/-- Response schema with a top-level totalCount property. -/
def totalCountSchema : SwaggerSchema :=
  objSchema [("totalCount", typeSchema "integer")] none

/-- Operation of claim C2 whose only pagination signal sits on a 404 (non-
success) response. -/
def notFoundPaginatedOp : SwaggerOperation :=
  { responses :=
      [("404", { description := "nf",
                 content := some [("application/json", { schema := some totalCountSchema })] })] }

/-- Operation of claim C10: declared operationId, and a JSON schema only on a
404 response, so the response-body reference is set while no OutData model is
emitted. -/
def getThingOp : SwaggerOperation :=
  { operationId := some "getThing",
    responses :=
      [("404", { description := "nf",
                 content := some [("application/json", { schema := some (typeSchema "string") })] })] }

/-- Document of claim C10. -/
def thingSpec : SwaggerSpec := { paths := [("/things", [("get", getThingOp)])] }

/-- Operation of claim C8: an application-slash-json request body entry with
a schema, but no declared operationId. -/
def bodyNoIdOp : SwaggerOperation :=
  { requestBody := some { content := [("application/json", { schema := some (objSchema [("a", typeSchema "string")] none) })] },
    responses := [] }

/-- Document of claim C8 (also reused as an empty-table resolution context). -/
def bodyNoIdSpec : SwaggerSpec := { paths := [("/b", [("post", bodyNoIdOp)])] }

/-- Declared path parameter of claim C9 with required explicitly false. -/
def idParamNotRequired : SwaggerParameter :=
  { name := "id", paramIn := "path", required := some false,
    schema := some (typeSchema "integer"), description := some "the id" }

/-- Operation of claim C9. -/
def getByIdOp : SwaggerOperation :=
  { operationId := some "getItem", parameters := some [idParamNotRequired],
    responses := [("200", okResponse)] }

/-- Schema A of claim C6: a required string property named id. -/
def schemaA : SwaggerSchema := objSchema [("id", typeSchema "string")] (some ["id"])

/-- Schema B of claim C6: a required string property named name. -/
def schemaB : SwaggerSchema := objSchema [("name", typeSchema "string")] (some ["name"])

/-- The allOf composition of claim C6. -/
def allOfAB : SwaggerSchema := allOfSchema [schemaA, schemaB]

/-- A document with no paths and no schema tables. -/
def emptySpec : SwaggerSpec := { paths := [] }

/-- Operation of claim C7: declared operationId and a request body whose
schema is a reference into a missing schemas table. -/
def danglingRefOp : SwaggerOperation :=
  { operationId := some "makeWidget",
    requestBody := some { content := [("application/json", { schema := some (refSchema "#/components/schemas/Missing") })] },
    responses := [] }

/-! ## Generic lemmas about the embedding's list operations -/

/-- Folding a step that preserves a predicate preserves it over a whole
list. -/
lemma foldl_preserve {σ α : Type} (P : σ → Prop) (f : σ → α → σ)
    (h : ∀ s a, P s → P (f s a)) : ∀ (l : List α) (s : σ), P s → P (l.foldl f s) := by
  intro l
  induction l with
  | nil => intro s hs; simpa using hs
  | cons a t ih => intro s hs; simpa using ih (f s a) (h s a hs)

/-- Pushing a batch starting from accumulated models only appends: the result
is the accumulated models followed by what the batch alone contributes. -/
lemma pushModels_append :
    ∀ (batch models : List ModelDocumentation) (seen : List String),
      pushModels batch models seen =
        (models ++ (pushModels batch [] seen).1, (pushModels batch [] seen).2) := by
  intro batch
  induction batch with
  | nil => intro models seen; simp [pushModels]
  | cons m t ih =>
    intro models seen
    by_cases hc : m.modelName ∈ seen
    · simp [pushModels, hc, ih models seen]
    · rw [show pushModels (m :: t) models seen =
            pushModels t (models ++ [m]) (m.modelName :: seen) from by simp [pushModels, hc],
          show pushModels (m :: t) [] seen =
            pushModels t ([] ++ [m]) (m.modelName :: seen) from by simp [pushModels, hc]]
      rw [ih (models ++ [m]), ih ([] ++ [m])]
      simp

/-- Invariant preservation of the seen-set push: distinct names stay
distinct, every emitted name is recorded, and the seen-set only grows. -/
lemma pushModels_inv :
    ∀ (batch models : List ModelDocumentation) (seen : List String),
      (models.map (fun m => m.modelName)).Nodup →
      (∀ m ∈ models, m.modelName ∈ seen) →
      ((pushModels batch models seen).1.map (fun m => m.modelName)).Nodup ∧
        (∀ m ∈ (pushModels batch models seen).1, m.modelName ∈ (pushModels batch models seen).2) ∧
        (∀ x ∈ seen, x ∈ (pushModels batch models seen).2) := by
  intro batch
  induction batch with
  | nil =>
    intro models seen h1 h2
    exact ⟨by simpa [pushModels] using h1, by simpa [pushModels] using h2,
      by simp [pushModels]⟩
  | cons m t ih =>
    intro models seen h1 h2
    by_cases hc : m.modelName ∈ seen
    · simpa [pushModels, hc] using ih models seen h1 h2
    · have h1' : ((models ++ [m]).map (fun m => m.modelName)).Nodup := by
        rw [List.map_append, List.nodup_append]
        refine ⟨h1, by simp, ?_⟩
        intro x hx
        simp only [List.map_cons, List.map_nil, List.mem_singleton]
        intro hxm
        rcases List.mem_map.mp hx with ⟨m', hm', hname⟩
        apply hc
        rw [← hxm, ← hname]
        exact h2 m' hm'
      have h2' : ∀ m' ∈ models ++ [m], m'.modelName ∈ m.modelName :: seen := by
        intro m' hm'
        rcases List.mem_append.mp hm' with h | h
        · exact List.mem_cons_of_mem _ (h2 m' h)
        · simp only [List.mem_singleton] at h
          simp [h]
      have hmain := ih (models ++ [m]) (m.modelName :: seen) h1' h2'
      refine ⟨?_, ?_, ?_⟩
      · simpa [pushModels, hc] using hmain.1
      · simpa [pushModels, hc] using hmain.2.1
      · intro x hx
        have hx2 : x ∈ (pushModels t (models ++ [m]) (m.modelName :: seen)).2 :=
          hmain.2.2 x (List.mem_cons_of_mem _ hx)
        simpa [pushModels, hc] using hx2

/-- Renumbering keeps the model names. -/
lemma renumberFrom_map_name :
    ∀ (i : Nat) (l : List ModelDocumentation),
      (renumberFrom i l).map (fun m => m.modelName) = l.map (fun m => m.modelName) := by
  intro i l
  induction l generalizing i with
  | nil => simp [renumberFrom]
  | cons m t ih => simp [renumberFrom, ih]

/-- The traversal invariant: emitted model names are distinct and all
recorded in the seen-set. -/
def ModelsInv (st : ExtractState) : Prop :=
  (st.models.map (fun m => m.modelName)).Nodup ∧ ∀ m ∈ st.models, m.modelName ∈ st.seen

/-- Processing one path-method pair preserves the traversal invariant. -/
lemma processOperation_inv (fuel : Nat) (api : SwaggerSpec) (path method : String)
    (op : SwaggerOperation) (st : ExtractState) (h : ModelsInv st) :
    ModelsInv (processOperation fuel api path method op st) := by
  unfold processOperation
  by_cases hv : isValidHttpMethod method
  · simp only [hv, if_true]
    have e := pushModels_append (operationModelBatch fuel op api) st.models st.seen
    have hpush := pushModels_inv (operationModelBatch fuel op api) st.models st.seen h.1 h.2
    rw [e] at hpush
    constructor
    · simpa [extractModelsFromOperation] using hpush.1
    · intro m hm
      simp only [extractModelsFromOperation] at hm ⊢
      exact hpush.2.1 m (by simpa using hm)
  · simpa [hv] using h

/-- Processing a whole path row preserves the traversal invariant. -/
lemma processPath_inv (fuel : Nat) (api : SwaggerSpec) (st : ExtractState)
    (pm : String × List (String × SwaggerOperation)) (h : ModelsInv st) :
    ModelsInv (processPath fuel api st pm) := by
  unfold processPath
  exact foldl_preserve ModelsInv _
    (fun s mo hs => processOperation_inv fuel api pm.1 mo.1 mo.2 s hs) pm.2 st h

/-- Claim C5 theorem: model names returned by one synthesis call are pairwise
distinct — every candidate model is pushed through the one seen-name set
(operation models first, standalone models last), and a name already in the
set is never re-emitted. -/
theorem modelNames_pairwise_distinct (fuel : Nat) (api : SwaggerSpec) :
    (((extractDocumentationData fuel api).2).map (fun m => m.modelName)).Nodup := by
  have hst : ModelsInv (api.paths.foldl (processPath fuel api) ⟨[], [], [], 1⟩) := by
    apply foldl_preserve ModelsInv (processPath fuel api)
      (fun s pm hs => processPath_inv fuel api s pm hs)
    exact ⟨by simp, by simp⟩
  simp only [extractDocumentationData, extractStandaloneModels, renumberFrom_map_name]
  set st := api.paths.foldl (processPath fuel api) ⟨[], [], [], 1⟩ with hstdef
  have e := pushModels_append
    ((standaloneSchemas api).map (fun p => standaloneModel fuel api p.1 p.2)) st.models st.seen
  have hpush := pushModels_inv
    ((standaloneSchemas api).map (fun p => standaloneModel fuel api p.1 p.2)) st.models st.seen
    hst.1 hst.2
  rw [e] at hpush
  simpa using hpush.1

/-! ## Operation-id characterization (claim C4) -/

/-- The operationId stored on an API record is the declared (truthy) id or
the synthesized one. -/
lemma createApiDocumentation_operationId (sNo : Nat) (path method : String)
    (op : SwaggerOperation) (api : SwaggerSpec) :
    (createApiDocumentation sNo path method op api).operationId =
      (opIdOpt op).getD (generateOperationId method path) := rfl

/-- The path-method-operation triples the synthesis loop visits, in order. -/
def traversedOps (api : SwaggerSpec) : List (String × String × SwaggerOperation) :=
  api.paths.flatMap (fun pm =>
    (pm.2.filter (fun mo => isValidHttpMethod mo.1)).map (fun mo => (pm.1, mo.1, mo.2)))

/-- The operationId the loop derives for one visited triple. -/
def derivedOpId (t : String × String × SwaggerOperation) : String :=
  (opIdOpt t.2.2).getD (generateOperationId t.2.1 t.1)

/-- The API records accumulated over one path row carry exactly the derived
operationIds of its recognized methods, appended in order. -/
lemma foldl_ops_opIds (fuel : Nat) (api : SwaggerSpec) (p : String) :
    ∀ (mos : List (String × SwaggerOperation)) (st : ExtractState),
      ((mos.foldl (fun s mo => processOperation fuel api p mo.1 mo.2 s) st).apis).map
          (fun a => a.operationId)
        = st.apis.map (fun a => a.operationId)
          ++ (mos.filter (fun mo => isValidHttpMethod mo.1)).map
              (fun mo => (opIdOpt mo.2).getD (generateOperationId mo.1 p)) := by
  intro mos
  induction mos with
  | nil => intro st; simp
  | cons mo t ih =>
    intro st
    by_cases hv : isValidHttpMethod mo.1
    · simp only [List.foldl_cons, ih, List.filter_cons, hv, if_true, List.map_cons]
      simp [processOperation, hv, createApiDocumentation_operationId]
    · simp only [List.foldl_cons, ih, List.filter_cons, hv]
      simp [processOperation, hv]

/-- The API records of the whole traversal carry exactly the derived
operationIds of the visited triples. -/
lemma paths_apis_opIds (fuel : Nat) (api : SwaggerSpec) :
    ∀ (ps : List (String × List (String × SwaggerOperation))) (st : ExtractState),
      ((ps.foldl (processPath fuel api) st).apis).map (fun a => a.operationId)
        = st.apis.map (fun a => a.operationId)
          ++ ps.flatMap (fun pm =>
              (pm.2.filter (fun mo => isValidHttpMethod mo.1)).map
                (fun mo => (opIdOpt mo.2).getD (generateOperationId mo.1 pm.1))) := by
  intro ps
  induction ps with
  | nil => intro st; simp
  | cons pm t ih =>
    intro st
    simp only [List.foldl_cons, ih, List.flatMap_cons, processPath,
      foldl_ops_opIds fuel api pm.1 pm.2 st, List.append_assoc]

/-- Claim C4 characterization: the operationIds of the returned apis array
are, in traversal order, exactly the derived ids of the visited
path-method-operation triples (no uniqueness enforcement happens). -/
lemma extractDocumentationData_opIds (fuel : Nat) (api : SwaggerSpec) :
    ((extractDocumentationData fuel api).1).map (fun a => a.operationId)
      = (traversedOps api).map derivedOpId := by
  simp only [extractDocumentationData, paths_apis_opIds, traversedOps, derivedOpId]
  simp only [List.map_flatMap, List.map_map, List.nil_append]
  congr 1

/-- Distinctness transfers from an option-valued projection to its defaulted
value when the projection is everywhere defined. -/
lemma nodup_map_of_nodup_some {α : Type} (l : List α) (f : α → Option String) (g : α → String)
    (h : ∀ x ∈ l, f x = some (g x)) (hn : (l.map f).Nodup) : (l.map g).Nodup := by
  induction l with
  | nil => simp
  | cons a t ih =>
    simp only [List.map_cons, List.nodup_cons] at hn ⊢
    refine ⟨?_, ih (fun x hx => h x (List.mem_cons_of_mem _ hx)) hn.2⟩
    intro hmem
    rcases List.mem_map.mp hmem with ⟨b, hb, hgb⟩
    apply hn.1
    rw [List.mem_map]
    refine ⟨b, hb, ?_⟩
    rw [h b (List.mem_cons_of_mem _ hb), h a (List.mem_cons_self a t), hgb]

/-- Claim C4 counterexample: two distinct valid paths (one with a trailing
slash) synthesize the same operationId, so the returned apis array carries a
duplicate. -/
theorem operationIds_not_unique_counterexample :
    ((extractDocumentationData 1 collidingSpec).1.map (fun a => a.operationId)
        = ["getItems", "getItems"]) ∧
      ¬ (((extractDocumentationData 1 collidingSpec).1.map (fun a => a.operationId)).Nodup) :=
  ⟨rfl, by decide⟩

/-- Claim C4 amended theorem: the synthesis performs no uniqueness
enforcement; the returned operationIds are pairwise distinct whenever every
visited operation declares a non-empty operationId and those declared ids are
pairwise distinct. -/
theorem operationIds_unique_of_declared_distinct (fuel : Nat) (api : SwaggerSpec)
    (h1 : ∀ t ∈ traversedOps api, (opIdOpt t.2.2).isSome = true)
    (h2 : ((traversedOps api).map (fun t => opIdOpt t.2.2)).Nodup) :
    (((extractDocumentationData fuel api).1).map (fun a => a.operationId)).Nodup := by
  rw [extractDocumentationData_opIds]
  apply nodup_map_of_nodup_some _ (fun t => opIdOpt t.2.2) derivedOpId _ h2
  intro t ht
  rcases Option.isSome_iff_exists.mp (h1 t ht) with ⟨s, hs⟩
  simp [derivedOpId, hs]

/-- Witness for the amended claim C4 theorem at a concrete one-operation
document with a declared operationId. -/
theorem operationIds_unique_witness :
    (((extractDocumentationData 1 thingSpec).1).map (fun a => a.operationId)).Nodup :=
  operationIds_unique_of_declared_distinct 1 thingSpec (by decide) (by decide)

/-! ## Concrete evaluations for claims C1, C3 and C10 -/

/-- Claim C1 evaluation: on GET /items with query parameters page and limit
and no declared operationId, the API record carries the synthesized
operationId getItems, the pagination flag and a GetItemsQueryParams
reference — but the models array carries the query-params model under the
name UnknownQueryParams (the model extractor falls back to the literal
operationId unknown instead of the synthesized one), with the page/limit
number properties and no required list. -/
theorem getItems_synthesis_divergence :
    ((extractDocumentationData 2 itemsSpec).1.map
        (fun a => (a.operationId, a.isPaginated, a.queryParamsRef))
      = [("getItems", true, some "GetItemsQueryParams")]) ∧
    ((extractDocumentationData 2 itemsSpec).2.map (fun m => m.modelName)
      = ["UnknownQueryParams"]) ∧
    ((extractDocumentationData 2 itemsSpec).2.map (fun m => (m.properties, m.required))
      = [([("page", OutProp.prim "number" none none none),
           ("limit", OutProp.prim "number" none none none)], none)]) ∧
    ("GetItemsQueryParams" ∉ (extractDocumentationData 2 itemsSpec).2.map (fun m => m.modelName)) :=
  ⟨rfl, rfl, rfl, by decide⟩

/-- Claim C3 evaluation: the same document yields a model whose
usedInOperations value is the literal unknown, while the apis array's only
operationId is getItems — the listed id matches no API record (referential
integrity broken by the fallback). -/
theorem usedInOperations_dangling :
    ((extractDocumentationData 2 itemsSpec).2.map (fun m => m.usedInOperations)
      = [some "unknown"]) ∧
    ((extractDocumentationData 2 itemsSpec).1.map (fun a => a.operationId) = ["getItems"]) ∧
    ("unknown" ∉ (extractDocumentationData 2 itemsSpec).1.map (fun a => a.operationId)) :=
  ⟨rfl, rfl, by decide⟩

/-- Claim C10 theorem: a document exists on which an API record's
responseBodyRef names a model absent from the models array — the reference
is set by hasResponseBody over every response, while OutData models come
only from success responses (here the only JSON schema sits on a 404). -/
theorem responseBodyRef_without_model :
    ((extractDocumentationData 2 thingSpec).1.map (fun a => a.responseBodyRef)
      = [some "GetThingOutData"]) ∧
    ((extractDocumentationData 2 thingSpec).2 = []) ∧
    (hasResponseBody getThingOp = true) ∧
    (createResponseModels 2 getThingOp thingSpec = []) ∧
    ("GetThingOutData" ∉ (extractDocumentationData 2 thingSpec).2.map (fun m => m.modelName)) :=
  ⟨rfl, rfl, rfl, rfl, by decide⟩

/-! ## Pagination detection (claim C2) -/

/-- Modelled from the claim's wording, as the comparison point for claim C2:
a parameter whose name case-insensitively equals one of the six pagination
parameter names, or a success (status beginning with the digit 2) response
whose schema carries a pagination-shaped property. -/
def specDetectPagination (op : SwaggerOperation) : Bool :=
  ((op.parameters.getD []).any (fun p =>
      paginationParamNames.any (fun q => lowerStr p.name == lowerStr q)))
    || ((op.responses.filter (fun pr => strStartsWithChar pr.1 '2')).any (fun pr =>
      isPaginatedSchema (respSchema pr.2)))

/-- Claim C2 counterexample: a parameter literally named pageSize does not
trigger the source's detection (its lower-cased name is compared against the
mixed-case literal), and a pagination-shaped schema on a 404 response does
trigger it (every response is scanned, not only successes) — so the claimed
equivalence fails in both directions. -/
theorem detectPagination_counterexample :
    (specDetectPagination pageSizeOp = true ∧ detectPagination pageSizeOp = false) ∧
      (specDetectPagination notFoundPaginatedOp = false ∧
        detectPagination notFoundPaginatedOp = true) := by
  decide

/-- Pagination-shaped schema characterization: some top-level property whose
lower-cased name is one of the six lower-cased pagination field names. -/
lemma isPaginatedSchema_iff (o : Option SwaggerSchema) :
    isPaginatedSchema o = true ↔
      ∃ sch, o = some sch ∧ ∃ props, sch.properties = some props ∧
        ∃ q ∈ props, lowerStr q.1 ∈
          (["totalcount", "totalpages", "page", "pagesize", "hasnext",
            "hasprevious"] : List String) := by
  cases o with
  | none => simp [isPaginatedSchema]
  | some sc =>
    cases hp : sc.properties with
    | none => simp [isPaginatedSchema, hp]
    | some props =>
      have e1 : lowerStr "totalCount" = "totalcount" := rfl
      have e2 : lowerStr "totalPages" = "totalpages" := rfl
      have e3 : lowerStr "page" = "page" := rfl
      have e4 : lowerStr "pageSize" = "pagesize" := rfl
      have e5 : lowerStr "hasNext" = "hasnext" := rfl
      have e6 : lowerStr "hasPrevious" = "hasprevious" := rfl
      simp only [isPaginatedSchema, hp, paginationFields, List.any_cons, List.any_nil,
        Bool.or_eq_true, List.elem_iff, e1, e2, e3, e4, e5, e6]
      constructor
      · intro h
        refine ⟨sc, rfl, props, hp, ?_⟩
        simp only [List.mem_map] at h
        rcases h with ⟨q, hq, he⟩ | ⟨q, hq, he⟩ | ⟨q, hq, he⟩ | ⟨q, hq, he⟩ |
          ⟨q, hq, he⟩ | ⟨q, hq, he⟩ | hf
        · exact ⟨q, hq, by rw [he]; decide⟩
        · exact ⟨q, hq, by rw [he]; decide⟩
        · exact ⟨q, hq, by rw [he]; decide⟩
        · exact ⟨q, hq, by rw [he]; decide⟩
        · exact ⟨q, hq, by rw [he]; decide⟩
        · exact ⟨q, hq, by rw [he]; decide⟩
        · exact absurd hf (by simp)
      · intro h
        obtain ⟨sch, hsc, props2, hp2, q, hq, hmem⟩ := h
        injection hsc with hsc'
        subst hsc'
        rw [hp] at hp2
        injection hp2 with hpp
        subst hpp
        simp only [List.mem_cons, List.not_mem_nil, or_false] at hmem
        rcases hmem with h | h | h | h | h | h
        · exact Or.inl (List.mem_map.mpr ⟨q, hq, h⟩)
        · exact Or.inr (Or.inl (List.mem_map.mpr ⟨q, hq, h⟩))
        · exact Or.inr (Or.inr (Or.inl (List.mem_map.mpr ⟨q, hq, h⟩)))
        · exact Or.inr (Or.inr (Or.inr (Or.inl (List.mem_map.mpr ⟨q, hq, h⟩))))
        · exact Or.inr (Or.inr (Or.inr (Or.inr (Or.inl (List.mem_map.mpr ⟨q, hq, h⟩)))))
        · exact Or.inr (Or.inr (Or.inr (Or.inr (Or.inr (Or.inl (List.mem_map.mpr ⟨q, hq, h⟩))))))

/-- Claim C2 amended theorem: the returned pagination flag is true iff some
declared parameter's lower-cased name is a member of the source's literal
list (so the mixed-case entries pageSize and pageNumber can never match), or
some response — of any status, not only successes — carries a schema with a
top-level property whose name case-insensitively equals one of the six
pagination field names. -/
theorem detectPagination_characterization (op : SwaggerOperation) :
    detectPagination op = true ↔
      ((∃ p ∈ op.parameters.getD [], lowerStr p.name ∈ paginationParamNames) ∨
        (∃ pr ∈ op.responses, ∃ sch, respSchema pr.2 = some sch ∧
          ∃ props, sch.properties = some props ∧
            ∃ q ∈ props, lowerStr q.1 ∈
              (["totalcount", "totalpages", "page", "pagesize", "hasnext",
                "hasprevious"] : List String))) := by
  simp only [detectPagination]
  rw [Bool.or_eq_true]
  apply or_congr
  · cases hp : op.parameters with
    | none => simp [hp]
    | some ps => simp [hp]
  · rw [List.any_eq_true]
    exact exists_congr fun pr => and_congr_right fun _ => isPaginatedSchema_iff _

/-! ## Association-list and deduplication lemmas (claim C6) -/

/-- Option.or with a some left operand. -/
lemma someOr {α : Type} (a : α) (x : Option α) : (some a).or x = some a := rfl

/-- Option.or with a none left operand. -/
lemma noneOr {α : Type} (x : Option α) : (Option.none).or x = x := rfl

/-- A false contains means non-membership, in computable form. -/
lemma contains_eq_false_of_not_mem {l : List String} {a : String} (h : a ∉ l) :
    l.contains a = false := by
  cases hcon : l.contains a with
  | false => rfl
  | true => exact absurd (List.elem_iff.mp hcon) h

/-- Lookup distributes over append, first list first. -/
lemma lookupStr_append {α : Type} (m n : List (String × α)) (k : String) :
    lookupStr (m ++ n) k = (lookupStr m k).or (lookupStr n k) := by
  induction m with
  | nil => simp [lookupStr, noneOr]
  | cons p t ih =>
    by_cases h : p.1 == k
    · simp [lookupStr, h, someOr]
    · simp [lookupStr, h, ih]

/-- A key outside the key list looks up to nothing. -/
lemma lookupStr_eq_none {α : Type} :
    ∀ (m : List (String × α)) (k : String), k ∉ keysOf m → lookupStr m k = none := by
  intro m
  induction m with
  | nil => intro k _; rfl
  | cons p t ih =>
    intro k hk
    simp only [keysOf, List.map_cons, List.mem_cons] at hk
    push_neg at hk
    have hne : (p.1 == k) = false := by
      simp only [beq_eq_false_iff_ne]
      exact fun he => hk.1 (he ▸ rfl)
    simp only [lookupStr, hne, Bool.false_eq_true, if_false]
    exact ih k (by simpa [keysOf] using hk.2)

/-- A Boolean that is not true is false. -/
lemma boolNotTrue {b : Bool} (h : ¬ b = true) : b = false := by
  cases b with
  | true => exact absurd rfl h
  | false => rfl

/-- In-place overwrite keeps lookups of other keys. -/
lemma lookupStr_map_set_ne {α : Type} (k k' : String) (v : α) (hne : k' ≠ k) :
    ∀ m : List (String × α),
      lookupStr (m.map (fun p => if p.1 == k then (k, v) else p)) k' = lookupStr m k' := by
  intro m
  induction m with
  | nil => rfl
  | cons p t ih =>
    by_cases h : (p.1 == k) = true
    · have hpk : p.1 = k := by simpa using h
      have h1 : (k == k') = false := by
        rw [beq_eq_false_iff_ne]
        exact fun he => hne he.symm
      have h2 : (p.1 == k') = false := by rw [hpk]; exact h1
      rw [List.map_cons, if_pos h]
      simp only [lookupStr, h1, h2, Bool.false_eq_true, if_false]
      exact ih
    · rw [List.map_cons, if_neg h]
      simp only [lookupStr]
      rw [ih]

/-- In-place overwrite makes the overwritten key look up to the new value,
provided the key occurs. -/
lemma lookupStr_map_set_self {α : Type} (k : String) (v : α) :
    ∀ m : List (String × α), m.any (fun p => p.1 == k) = true →
      lookupStr (m.map (fun p => if p.1 == k then (k, v) else p)) k = some v := by
  intro m
  induction m with
  | nil => intro h; simp at h
  | cons p t ih =>
    intro h
    by_cases hp : (p.1 == k) = true
    · rw [List.map_cons, if_pos hp]
      simp [lookupStr]
    · have hpb : (p.1 == k) = false := boolNotTrue hp
      have ht : t.any (fun p => p.1 == k) = true := by
        simpa [List.any_cons, hpb] using h
      rw [List.map_cons, if_neg hp]
      simp only [lookupStr, hpb, Bool.false_eq_true, if_false]
      exact ih ht

/-- The JS write followed by a lookup: the written key reads the new value,
every other key is untouched. -/
lemma lookupStr_setKey {α : Type} (m : List (String × α)) (k k' : String) (v : α) :
    lookupStr (setKey m k v) k' = if k' = k then some v else lookupStr m k' := by
  unfold setKey
  by_cases ha : m.any (fun p => p.1 == k) = true
  · rw [if_pos ha]
    by_cases hk : k' = k
    · subst hk
      rw [if_pos rfl]
      exact lookupStr_map_set_self k' v m ha
    · rw [if_neg hk]
      exact lookupStr_map_set_ne k k' v hk m
  · rw [if_neg ha, lookupStr_append]
    by_cases hk : k' = k
    · subst hk
      have hnone : lookupStr m k' = none := by
        apply lookupStr_eq_none
        intro hmem
        rcases List.mem_map.mp hmem with ⟨p, hp, hpk⟩
        exact ha (List.any_eq_true.mpr ⟨p, hp, by simp [hpk]⟩)
      rw [hnone, if_pos rfl]
      simp [lookupStr, noneOr]
    · rw [if_neg hk]
      have hone : lookupStr [(k, v)] k' = none := by
        have : (k == k') = false := by
          rw [beq_eq_false_iff_ne]
          exact fun he => hk he.symm
        simp [lookupStr, this]
      rw [hone, Option.or_none]

/-- Looking up after assigning a whole list: the assigned list's last write
wins, else the original binding. -/
lemma lookupStr_assignAll {α : Type} :
    ∀ (n m : List (String × α)) (k : String),
      lookupStr (assignAll m n) k = (lastLookup n k).or (lookupStr m k) := by
  intro n
  induction n with
  | nil => intro m k; simp [assignAll, lastLookup, noneOr]
  | cons p t ih =>
    intro m k
    have step : assignAll m (p :: t) = assignAll (setKey m p.1 p.2) t := by
      simp [assignAll]
    rw [step, ih, lookupStr_setKey]
    simp only [lastLookup]
    by_cases hk : k = p.1
    · simp only [hk, if_true]
      cases lastLookup t p.1 with
      | none => simp [noneOr]
      | some x => simp [someOr]
    · simp only [hk, if_false]
      cases lastLookup t k with
      | none => simp [noneOr]
      | some x => simp [someOr]

/-- In-place overwrite keeps the key list unchanged. -/
lemma keysOf_map_set {α : Type} (k : String) (v : α) :
    ∀ m : List (String × α),
      keysOf (m.map (fun p => if p.1 == k then (k, v) else p)) = keysOf m := by
  intro m
  induction m with
  | nil => rfl
  | cons p t ih =>
    by_cases h : (p.1 == k) = true
    · have hpk : p.1 = k := by simpa using h
      rw [List.map_cons, if_pos h]
      simp only [keysOf, List.map_cons] at ih ⊢
      rw [ih, hpk]
    · rw [List.map_cons, if_neg h]
      simp only [keysOf, List.map_cons] at ih ⊢
      rw [ih]

/-- The JS write preserves distinctness of the key list. -/
lemma nodup_keysOf_setKey {α : Type} (m : List (String × α)) (k : String) (v : α)
    (h : (keysOf m).Nodup) : (keysOf (setKey m k v)).Nodup := by
  unfold setKey
  by_cases ha : m.any (fun p => p.1 == k) = true
  · rw [if_pos ha, keysOf_map_set]
    exact h
  · rw [if_neg ha]
    have hk : k ∉ keysOf m := by
      intro hmem
      rcases List.mem_map.mp hmem with ⟨p, hp, hpk⟩
      exact ha (List.any_eq_true.mpr ⟨p, hp, by simp [hpk]⟩)
    simp only [keysOf, List.map_append, List.map_cons, List.map_nil]
    rw [List.nodup_append]
    exact ⟨h, by simp, by
      intro x hx
      simp only [List.mem_cons, List.not_mem_nil, or_false]
      intro hxk
      exact hk (hxk ▸ hx)⟩

/-- A fold of JS writes preserves distinctness of the key list. -/
lemma nodup_keysOf_foldl_setKey {α β : Type} (key : β → String) (val : β → α) :
    ∀ (l : List β) (m : List (String × α)), (keysOf m).Nodup →
      (keysOf (l.foldl (fun acc x => setKey acc (key x) (val x)) m)).Nodup := by
  intro l
  induction l with
  | nil => intro m h; simpa using h
  | cons x t ih =>
    intro m h
    simpa using ih _ (nodup_keysOf_setKey m (key x) (val x) h)

/-- Assigning a whole list preserves distinctness of the key list. -/
lemma nodup_keysOf_assignAll {α : Type} (m n : List (String × α))
    (h : (keysOf m).Nodup) : (keysOf (assignAll m n)).Nodup := by
  unfold assignAll
  exact nodup_keysOf_foldl_setKey (fun p => p.1) (fun p => p.2) n m h

/-- Every property map the extractor returns has pairwise-distinct keys (it
is built from the empty JS object by key writes only). -/
lemma extract_keys_nodup (fuel : Nat) (api : SwaggerSpec) (s : SwaggerSchema) :
    (keysOf (extractSchemaProperties fuel api s).1).Nodup := by
  cases fuel with
  | zero => simp [extractSchemaProperties, keysOf]
  | succ f =>
    have h0 : (keysOf (match s.properties with
        | none => ([] : List (String × OutProp))
        | some ps => ps.foldl
            (fun acc p => setKey acc p.1 (convertSchemaToProperty f api p.2)) [])).Nodup := by
      cases s.properties with
      | none => simp [keysOf]
      | some ps =>
        exact nodup_keysOf_foldl_setKey (fun p => p.1)
          (fun p => convertSchemaToProperty f api p.2) ps [] (by simp [keysOf])
    simp only [extractSchemaProperties]
    cases hall : s.allOf with
    | none => simpa using h0
    | some l =>
      have hfold := foldl_preserve
        (fun acc : List (String × OutProp) × List String => (keysOf acc.1).Nodup)
        (fun acc sub =>
          (assignAll acc.1 (extractSchemaProperties f api (resolveSchema api sub)).1,
            acc.2 ++ (extractSchemaProperties f api (resolveSchema api sub)).2))
        (fun acc sub hacc => nodup_keysOf_assignAll _ _ hacc) l
        ((match s.properties with
          | none => ([] : List (String × OutProp))
          | some ps => ps.foldl
              (fun acc p => setKey acc p.1 (convertSchemaToProperty f api p.2)) []),
         (match s.required with
          | none => ([] : List String)
          | some r => r)) h0
      simpa using hfold

/-- On key lists without duplicates, last-write lookup and first-match lookup
agree. -/
lemma lastLookup_eq_lookupStr {α : Type} :
    ∀ (n : List (String × α)), (keysOf n).Nodup → ∀ k, lastLookup n k = lookupStr n k := by
  intro n
  induction n with
  | nil => intro _ k; rfl
  | cons p t ih =>
    intro h k
    simp only [keysOf, List.map_cons, List.nodup_cons] at h
    by_cases hk : k = p.1
    · have hlk : lookupStr t k = none := by
        apply lookupStr_eq_none
        simpa [keysOf, hk] using h.1
      have hbeq : (p.1 == k) = true := by simp [hk]
      simp only [lastLookup, lookupStr, hbeq, if_true, if_pos hk]
      rw [ih (by simpa [keysOf] using h.2) k, hlk]
      rfl
    · have hbeq : (p.1 == k) = false := by
        rw [beq_eq_false_iff_ne]
        exact fun he => hk he.symm
      simp only [lastLookup, lookupStr, hbeq, Bool.false_eq_true, if_false, if_neg hk]
      rw [ih (by simpa [keysOf] using h.2) k, Option.or_none]

/-- Membership in the deduplicated list: present in the input and not
already seen. -/
lemma mem_dedupFirstAux :
    ∀ (l seen : List String) (x : String),
      x ∈ dedupFirstAux seen l ↔ x ∈ l ∧ x ∉ seen := by
  intro l
  induction l with
  | nil => intro seen x; simp [dedupFirstAux]
  | cons y t ih =>
    intro seen x
    by_cases hc : y ∈ seen
    · have hcb : seen.contains y = true := List.elem_iff.mpr hc
      simp only [dedupFirstAux, hcb, if_true]
      rw [ih]
      constructor
      · rintro ⟨hx, hs⟩
        exact ⟨List.mem_cons_of_mem _ hx, hs⟩
      · rintro ⟨hx, hs⟩
        rcases List.mem_cons.mp hx with rfl | hx'
        · exact absurd hc hs
        · exact ⟨hx', hs⟩
    · have hcb : seen.contains y = false := contains_eq_false_of_not_mem hc
      simp only [dedupFirstAux, hcb, Bool.false_eq_true, if_false]
      constructor
      · intro hx
        rcases List.mem_cons.mp hx with rfl | hx'
        · exact ⟨List.mem_cons_self _ _, hc⟩
        · rcases (ih (y :: seen) x).mp hx' with ⟨hxt, hxs⟩
          exact ⟨List.mem_cons_of_mem _ hxt,
            fun hmem => hxs (List.mem_cons_of_mem _ hmem)⟩
      · rintro ⟨hx, hs⟩
        rcases List.mem_cons.mp hx with rfl | hx'
        · exact List.mem_cons_self _ _
        · by_cases hxy : x = y
          · exact hxy ▸ List.mem_cons_self _ _
          · exact List.mem_cons_of_mem _ ((ih (y :: seen) x).mpr
              ⟨hx', by simp [hxy, hs]⟩)

/-- The deduplicated list has no duplicates. -/
lemma nodup_dedupFirstAux :
    ∀ (l seen : List String), (dedupFirstAux seen l).Nodup := by
  intro l
  induction l with
  | nil => intro seen; simp [dedupFirstAux]
  | cons y t ih =>
    intro seen
    by_cases hc : y ∈ seen
    · simpa [dedupFirstAux, hc] using ih seen
    · have hcb : seen.contains y = false := contains_eq_false_of_not_mem hc
      simp only [dedupFirstAux, hcb, Bool.false_eq_true, if_false, List.nodup_cons]
      refine ⟨?_, ih (y :: seen)⟩
      intro hmem
      exact ((mem_dedupFirstAux t (y :: seen) y).mp hmem).2 (List.mem_cons_self _ _)

/-- The schema with its composition list removed: extraction on it yields
exactly the schema's own declared property map and own (deduplicated)
required list, which is the accumulator the composition fold starts from. -/
def stripAllOf : SwaggerSchema → SwaggerSchema
  | .mk t f p r i _ o a rf e d ex => .mk t f p r i none o a rf e d ex

/-- Stripping the composition list keeps the declared properties. -/
lemma stripAllOf_properties (s : SwaggerSchema) : (stripAllOf s).properties = s.properties := by
  cases s
  rfl

/-- Stripping the composition list keeps the declared required list. -/
lemma stripAllOf_required (s : SwaggerSchema) : (stripAllOf s).required = s.required := by
  cases s
  rfl

/-- Stripping the composition list leaves no composition list. -/
lemma stripAllOf_allOf (s : SwaggerSchema) : (stripAllOf s).allOf = none := by
  cases s
  rfl

/-- A fold whose step acts componentwise on a pair splits into two folds. -/
lemma foldl_prod_split {α β γ : Type} (f : α → γ → α) (g : β → γ → β) :
    ∀ (l : List γ) (p : α) (r : β),
      l.foldl (fun acc x => (f acc.1 x, g acc.2 x)) (p, r) = (l.foldl f p, l.foldl g r) := by
  intro l
  induction l with
  | nil => intro p r; rfl
  | cons x t ih => intro p r; exact ih (f p x) (g r x)

/-- Membership in a fold of appends: in the seed or in some appended list. -/
lemma mem_foldl_append {γ : Type} (h : γ → List String) :
    ∀ (l : List γ) (r : List String) (k : String),
      k ∈ l.foldl (fun acc x => acc ++ h x) r ↔ k ∈ r ∨ ∃ x ∈ l, k ∈ h x := by
  intro l
  induction l with
  | nil => intro r k; simp
  | cons x t ih =>
    intro r k
    rw [List.foldl_cons, ih]
    simp only [List.mem_append, List.mem_cons]
    constructor
    · rintro ((hk | hk) | ⟨y, hy, hk⟩)
      · exact Or.inl hk
      · exact Or.inr ⟨x, Or.inl rfl, hk⟩
      · exact Or.inr ⟨y, Or.inr hy, hk⟩
    · rintro (hk | ⟨y, hy | hy, hk⟩)
      · exact Or.inl (Or.inl hk)
      · exact Or.inl (Or.inr (hy ▸ hk))
      · exact Or.inr ⟨y, hy, hk⟩

/-- Looking up after a fold of whole-map assignments over maps with distinct
keys: the later assignments take priority, the seed map is the fallback. -/
lemma lookup_foldl_assignAll {γ : Type} (h : γ → List (String × OutProp))
    (hnd : ∀ x, (keysOf (h x)).Nodup) :
    ∀ (l : List γ) (p : List (String × OutProp)) (k : String),
      lookupStr (l.foldl (fun acc x => assignAll acc (h x)) p) k
        = l.foldl (fun acc x => (lookupStr (h x) k).or acc) (lookupStr p k) := by
  intro l
  induction l with
  | nil => intro p k; rfl
  | cons x t ih =>
    intro p k
    rw [List.foldl_cons, ih, List.foldl_cons, lookupStr_assignAll,
      lastLookup_eq_lookupStr _ (hnd x) k]

/-- Claim C6 theorem: for every schema carrying a composition list (of any
length, entries possibly references, own properties and required list
possibly present), extraction merges each entry's recursively extracted
properties — each entry resolved first — into the accumulator seeded with
the schema's own property map, later entries overwriting same-named earlier
properties (the lookup fold gives the last binder priority and falls back to
the own map), and the returned required list is the union of the own
required names and every entry's, deduplicated; in particular the claim's
concrete two-schema composition yields the id/name property map and the
required list of both names. -/
theorem allOf_merge_characterization (api : SwaggerSpec) (fuel : Nat) (s : SwaggerSchema)
    (l : List SwaggerSchema) (hall : s.allOf = some l) :
    (∀ k, lookupStr (extractSchemaProperties (fuel + 1) api s).1 k
        = l.foldl
            (fun acc sub =>
              (lookupStr (extractSchemaProperties fuel api (resolveSchema api sub)).1 k).or acc)
            (lookupStr (extractSchemaProperties (fuel + 1) api (stripAllOf s)).1 k)) ∧
      (∀ k, k ∈ (extractSchemaProperties (fuel + 1) api s).2 ↔
        (k ∈ (extractSchemaProperties (fuel + 1) api (stripAllOf s)).2 ∨
          ∃ sub ∈ l, k ∈ (extractSchemaProperties fuel api (resolveSchema api sub)).2)) ∧
      (extractSchemaProperties (fuel + 1) api s).2.Nodup ∧
      extractSchemaProperties 3 emptySpec allOfAB
        = ([("id", OutProp.prim "string" none none none),
            ("name", OutProp.prim "string" none none none)], ["id", "name"]) := by
  have hstrip : extractSchemaProperties (fuel + 1) api (stripAllOf s)
      = ((match s.properties with
          | none => ([] : List (String × OutProp))
          | some ps => ps.foldl
              (fun acc p => setKey acc p.1 (convertSchemaToProperty fuel api p.2)) []),
         dedupFirst (match s.required with
          | none => ([] : List String)
          | some r => r)) := by
    simp only [extractSchemaProperties, stripAllOf_properties, stripAllOf_required,
      stripAllOf_allOf]
  have hmain : extractSchemaProperties (fuel + 1) api s
      = (l.foldl
            (fun acc sub =>
              assignAll acc (extractSchemaProperties fuel api (resolveSchema api sub)).1)
            (match s.properties with
             | none => ([] : List (String × OutProp))
             | some ps => ps.foldl
                 (fun acc p => setKey acc p.1 (convertSchemaToProperty fuel api p.2)) []),
         dedupFirst (l.foldl
            (fun acc sub =>
              acc ++ (extractSchemaProperties fuel api (resolveSchema api sub)).2)
            (match s.required with
             | none => ([] : List String)
             | some r => r))) := by
    simp only [extractSchemaProperties, hall]
    rw [foldl_prod_split
      (fun a sub => assignAll a (extractSchemaProperties fuel api (resolveSchema api sub)).1)
      (fun b sub => b ++ (extractSchemaProperties fuel api (resolveSchema api sub)).2)]
  refine ⟨?_, ?_, ?_, rfl⟩
  · intro k
    rw [hmain, hstrip]
    exact lookup_foldl_assignAll
      (fun sub => (extractSchemaProperties fuel api (resolveSchema api sub)).1)
      (fun sub => extract_keys_nodup fuel api (resolveSchema api sub)) l _ k
  · intro k
    rw [hmain, hstrip]
    show k ∈ dedupFirst _ ↔ k ∈ dedupFirst _ ∨ _
    rw [dedupFirst, dedupFirst, mem_dedupFirstAux, mem_dedupFirstAux,
      mem_foldl_append (fun sub => (extractSchemaProperties fuel api (resolveSchema api sub)).2)]
    simp
  · rw [hmain]
    exact nodup_dedupFirstAux _ _

/-- Witness for the claim C6 theorem at the concrete composition of the two
claim schemas. -/
theorem allOf_merge_characterization_witness :
    (lookupStr (extractSchemaProperties 3 emptySpec allOfAB).1 "id"
        = [schemaA, schemaB].foldl
            (fun acc sub =>
              (lookupStr (extractSchemaProperties 2 emptySpec (resolveSchema emptySpec sub)).1
                  "id").or acc)
            (lookupStr (extractSchemaProperties 3 emptySpec (stripAllOf allOfAB)).1 "id")) ∧
      ("name" ∈ (extractSchemaProperties 3 emptySpec allOfAB).2 ↔
        ("name" ∈ (extractSchemaProperties 3 emptySpec (stripAllOf allOfAB)).2 ∨
          ∃ sub ∈ [schemaA, schemaB],
            "name" ∈ (extractSchemaProperties 2 emptySpec (resolveSchema emptySpec sub)).2)) ∧
      extractSchemaProperties 3 emptySpec allOfAB
        = ([("id", OutProp.prim "string" none none none),
            ("name", OutProp.prim "string" none none none)], ["id", "name"]) := by
  have h := allOf_merge_characterization emptySpec 2 allOfAB [schemaA, schemaB] rfl
  exact ⟨h.1 "id", h.2.1 "name", h.2.2.2⟩

/-! ## Unresolvable references (claim C7) -/

/-- Claim C7 theorem: a node carrying a reference whose pointer walk fails
(some segment missing) is returned unchanged by resolution, property
extraction on such a bare reference node yields the empty property map and
required list at every fuel, and a request body built on it yields an InData
model with an empty property map and no required list — the synthesis
functions stay total. -/
theorem unresolvable_ref_degrades (api : SwaggerSpec) (s : SwaggerSchema) (r : String)
    (hr : s.ref = some r) (hw : walkSpec api (refSegments r) = none)
    (hp : s.properties = none) (ha : s.allOf = none) (hq : s.required = none)
    (fuel : Nat) (op : SwaggerOperation) (rb : SwaggerRequestBody) (mo : MediaObject)
    (oid : String) (hrb : op.requestBody = some rb)
    (hc : lookupStr rb.content "application/json" = some mo) (hm : mo.schema = some s)
    (hoid : opIdOpt op = some oid) :
    resolveSchema api s = s ∧
      extractSchemaProperties fuel api s = ([], []) ∧
      createRequestBodyModel fuel op api = some
        { sNo := 0,
          modelName := pascalCase oid ++ "InData",
          properties := [],
          required := none,
          description := "Request body model for " ++ oid ++ " operation",
          usedInOperations := some oid } := by
  have hresolve : resolveSchema api s = s := by
    simp [resolveSchema, hr, hw]
  have hextract : ∀ f, extractSchemaProperties f api s = ([], []) := by
    intro f
    cases f with
    | zero => rfl
    | succ f' => simp [extractSchemaProperties, hp, ha, hq, dedupFirst, dedupFirstAux]
  refine ⟨hresolve, hextract fuel, ?_⟩
  simp [createRequestBodyModel, hrb, hoid, hc, hm, hresolve, hextract fuel]

/-- Witness for the claim C7 theorem: the concrete operation whose request
body schema points into a missing schemas table. -/
theorem unresolvable_ref_degrades_witness :
    resolveSchema emptySpec (refSchema "#/components/schemas/Missing")
        = refSchema "#/components/schemas/Missing" ∧
      extractSchemaProperties 5 emptySpec (refSchema "#/components/schemas/Missing") = ([], []) ∧
      createRequestBodyModel 5 danglingRefOp emptySpec = some
        { sNo := 0,
          modelName := pascalCase "makeWidget" ++ "InData",
          properties := [],
          required := none,
          description := "Request body model for " ++ "makeWidget" ++ " operation",
          usedInOperations := some "makeWidget" } :=
  unresolvable_ref_degrades emptySpec (refSchema "#/components/schemas/Missing")
    "#/components/schemas/Missing" rfl rfl rfl rfl rfl 5 danglingRefOp
    { content := [("application/json",
        { schema := some (refSchema "#/components/schemas/Missing") })] }
    { schema := some (refSchema "#/components/schemas/Missing") }
    "makeWidget" rfl rfl rfl rfl

/-! ## Request-body model emission (claim C8) -/

/-- String append is left-cancellative. -/
lemma stringAppendLeftInj (a : String) {b c : String} (h : a ++ b = a ++ c) : b = c := by
  have hd : (a ++ b).data = (a ++ c).data := by rw [h]
  have hd2 : a.data ++ b.data = a.data ++ c.data := by simpa using hd
  exact congrArg String.mk (List.append_cancel_left hd2)

/-- Names a query-params model can carry. -/
lemma createQueryParamsModel_name (op : SwaggerOperation) (q : String) :
    ∀ m ∈ (createQueryParamsModel op q).toList,
      m.modelName = pascalCase q ++ "QueryParams" := by
  intro m hm
  by_cases hq : ((op.parameters.getD []).filter (fun p => p.paramIn == "query")).isEmpty = true
  · simp [createQueryParamsModel, hq] at hm
  · simp [createQueryParamsModel, hq] at hm
    rw [hm]

/-- Names a request-body model can carry, under a declared operationId. -/
lemma createRequestBodyModel_name (fuel : Nat) (op : SwaggerOperation) (api : SwaggerSpec)
    (oid : String) (hoid : opIdOpt op = some oid) :
    ∀ m ∈ (createRequestBodyModel fuel op api).toList,
      m.modelName = pascalCase oid ++ "InData" := by
  intro m hm
  rcases hrb : op.requestBody with _ | rb
  · simp [createRequestBodyModel, hrb, hoid] at hm
  · rcases hlc : lookupStr rb.content "application/json" with _ | mo
    · simp [createRequestBodyModel, hrb, hoid, hlc] at hm
    · rcases hms : mo.schema with _ | sch
      · simp [createRequestBodyModel, hrb, hoid, hlc, hms] at hm
      · simp [createRequestBodyModel, hrb, hoid, hlc, hms] at hm
        rw [hm]

/-- The request-body model exists exactly when the operation declares a
request body whose application-slash-json content entry carries a schema
(given a declared operationId). -/
lemma createRequestBodyModel_isSome_iff (fuel : Nat) (op : SwaggerOperation) (api : SwaggerSpec)
    (oid : String) (hoid : opIdOpt op = some oid) :
    (createRequestBodyModel fuel op api).isSome = true ↔
      ∃ rb, op.requestBody = some rb ∧
        ∃ mo, lookupStr rb.content "application/json" = some mo ∧ mo.schema.isSome = true := by
  rcases hrb : op.requestBody with _ | rb
  · simp [createRequestBodyModel, hrb, hoid]
  · rcases hlc : lookupStr rb.content "application/json" with _ | mo
    · simp [createRequestBodyModel, hrb, hoid, hlc]
    · rcases hms : mo.schema with _ | sch
      · simp [createRequestBodyModel, hrb, hoid, hlc, hms]
      · simp only [createRequestBodyModel, hrb, hoid, hlc, hms, Option.isSome_some, true_iff]
        exact ⟨rb, rfl, mo, hlc, by simp [hms]⟩

/-- Names a response model can carry, under a declared operationId. -/
lemma createResponseModels_names (fuel : Nat) (op : SwaggerOperation) (api : SwaggerSpec)
    (oid : String) (hoid : opIdOpt op = some oid) :
    ∀ m ∈ createResponseModels fuel op api,
      m.modelName = pascalCase oid ++ "OutData" ∨
        m.modelName = pascalCase oid ++ "RecordData" := by
  intro m hm
  simp only [createResponseModels, hoid] at hm
  rcases List.mem_flatMap.mp hm with ⟨pr, _, hmem⟩
  rcases hcon : pr.2.content with _ | c
  · simp [hcon] at hmem
  · simp only [hcon] at hmem
    rcases hlc : lookupStr c "application/json" with _ | mo
    · simp [hlc] at hmem
    · simp only [hlc] at hmem
      rcases hms : mo.schema with _ | sch
      · simp [hms] at hmem
      · simp only [hms] at hmem
        by_cases hpag : isPaginatedSchema (some (resolveSchema api sch)) = true
        · rcases hrec : extractRecordSchema api (resolveSchema api sch) with _ | rsch
          · simp only [hpag, if_true, hrec, List.mem_singleton] at hmem
            rw [hmem]
            exact Or.inl rfl
          · simp only [hpag, if_true, hrec, List.mem_cons, List.mem_singleton,
              List.not_mem_nil, or_false] at hmem
            rcases hmem with hmem | hmem
            · rw [hmem]; exact Or.inl rfl
            · rw [hmem]; exact Or.inr rfl
        · simp only [hpag, Bool.false_eq_true, if_false, List.mem_singleton] at hmem
          rw [hmem]
          exact Or.inl rfl

/-- A name occurs among the models a push emits exactly when it was already
accumulated, or occurs in the batch and was not yet seen. -/
lemma pushModels_name_mem :
    ∀ (batch models : List ModelDocumentation) (seen : List String) (nm : String),
      nm ∈ (pushModels batch models seen).1.map (fun m => m.modelName) ↔
        (nm ∈ models.map (fun m => m.modelName) ∨
          (nm ∈ batch.map (fun m => m.modelName) ∧ nm ∉ seen)) := by
  intro batch
  induction batch with
  | nil => intro models seen nm; simp [pushModels]
  | cons m t ih =>
    intro models seen nm
    by_cases hc : m.modelName ∈ seen
    · rw [show pushModels (m :: t) models seen = pushModels t models seen from by
        simp [pushModels, hc]]
      rw [ih]
      constructor
      · rintro (h | ⟨h, hs⟩)
        · exact Or.inl h
        · exact Or.inr ⟨by simp only [List.map_cons, List.mem_cons]; exact Or.inr h, hs⟩
      · rintro (h | ⟨h, hs⟩)
        · exact Or.inl h
        · simp only [List.map_cons, List.mem_cons] at h
          rcases h with h | h
          · exact absurd (h ▸ hc) hs
          · exact Or.inr ⟨h, hs⟩
    · rw [show pushModels (m :: t) models seen
          = pushModels t (models ++ [m]) (m.modelName :: seen) from by simp [pushModels, hc]]
      rw [ih]
      simp only [List.map_append, List.map_cons, List.map_nil, List.mem_append,
        List.mem_cons, List.mem_singleton, List.not_mem_nil, or_false]
      constructor
      · rintro ((h | h) | ⟨h, hs⟩)
        · exact Or.inl h
        · exact Or.inr ⟨Or.inl h, h ▸ hc⟩
        · exact Or.inr ⟨Or.inr h, fun hm => hs (Or.inr hm)⟩
      · rintro (h | ⟨h | h, hs⟩)
        · exact Or.inl (Or.inl h)
        · exact Or.inl (Or.inr h)
        · by_cases hnm : nm = m.modelName
          · exact Or.inl (Or.inr hnm)
          · refine Or.inr ⟨h, ?_⟩
            rintro (h' | h')
            · exact hnm h'
            · exact hs h'

/-- Claim C8 counterexample: an operation declaring an application-slash-json
request body entry with a schema, but no operationId, emits no model at all
(the request-body creator bails out without a declared operationId). -/
theorem requestBodyModel_counterexample :
    ((extractModelsFromOperation 2 bodyNoIdOp bodyNoIdSpec []).1 = []) ∧
      (∃ rb, bodyNoIdOp.requestBody = some rb ∧
        ∃ mo, lookupStr rb.content "application/json" = some mo ∧ mo.schema.isSome = true) :=
  ⟨rfl, ⟨_, rfl, _, rfl, rfl⟩⟩

/-- Claim C8 amended theorem: given a declared (truthy) operationId and an
InData name not already seen, the InData model is emitted iff the operation
declares a request body whose application-slash-json content entry carries a
schema. -/
theorem requestBodyModel_emitted_iff (fuel : Nat) (op : SwaggerOperation) (api : SwaggerSpec)
    (seen : List String) (oid : String) (hoid : opIdOpt op = some oid)
    (hseen : (pascalCase oid ++ "InData") ∉ seen) :
    ((pascalCase oid ++ "InData") ∈
        (extractModelsFromOperation fuel op api seen).1.map (fun m => m.modelName)) ↔
      ∃ rb, op.requestBody = some rb ∧
        ∃ mo, lookupStr rb.content "application/json" = some mo ∧ mo.schema.isSome = true := by
  rw [extractModelsFromOperation, pushModels_name_mem]
  simp only [List.map_nil, List.not_mem_nil, false_or]
  rw [and_iff_left hseen]
  rw [operationModelBatch]
  simp only [List.map_append, List.mem_append]
  constructor
  · rintro ((h | h) | h)
    · by_cases hq : hasQueryParams op = true
      · rw [if_pos hq] at h
        rcases List.mem_map.mp h with ⟨mdl, hmdl, hname⟩
        have hqn := createQueryParamsModel_name op ((opIdOpt op).getD "unknown") mdl hmdl
        rw [hoid] at hqn
        simp only [Option.getD_some] at hqn
        rw [hqn] at hname
        exact absurd (stringAppendLeftInj _ hname) (by decide)
      · rw [if_neg hq] at h
        simp at h
    · by_cases hrb : op.requestBody.isSome = true
      · rw [if_pos hrb] at h
        rcases List.mem_map.mp h with ⟨mdl, hmdl, _⟩
        have hsome : (createRequestBodyModel fuel op api).isSome = true := by
          rcases hmo : createRequestBodyModel fuel op api with _ | v
          · rw [hmo] at hmdl; simp at hmdl
          · simp
        exact (createRequestBodyModel_isSome_iff fuel op api oid hoid).mp hsome
      · rw [if_neg hrb] at h
        simp at h
    · rcases List.mem_map.mp h with ⟨mdl, hmdl, hname⟩
      rcases createResponseModels_names fuel op api oid hoid mdl hmdl with hn | hn
      · rw [hn] at hname
        exact absurd (stringAppendLeftInj _ hname) (by decide)
      · rw [hn] at hname
        exact absurd (stringAppendLeftInj _ hname) (by decide)
  · intro hrhs
    have hsome : (createRequestBodyModel fuel op api).isSome = true :=
      (createRequestBodyModel_isSome_iff fuel op api oid hoid).mpr hrhs
    obtain ⟨mdl, hmdl⟩ := Option.isSome_iff_exists.mp hsome
    have hname := createRequestBodyModel_name fuel op api oid hoid mdl (by simp [hmdl])
    have hrbsome : op.requestBody.isSome = true := by
      rcases hrhs with ⟨rb, hrb, _⟩
      simp [hrb]
    refine Or.inl (Or.inr ?_)
    rw [if_pos hrbsome]
    exact List.mem_map.mpr ⟨mdl, by simp [hmdl], hname⟩

/-- Witness for the amended claim C8 theorem at the concrete operation with a
declared operationId and a JSON request body. -/
theorem requestBodyModel_emitted_witness :
    (pascalCase "makeWidget" ++ "InData") ∈
      (extractModelsFromOperation 2 danglingRefOp emptySpec []).1.map (fun m => m.modelName) :=
  (requestBodyModel_emitted_iff 2 danglingRefOp emptySpec [] "makeWidget" rfl
      (by simp)).mpr ⟨_, rfl, _, rfl, rfl⟩

/-! ## Path parameters (claim C9) -/

/-- Lookup after folding writes keyed by a name list: any listed name reads
its entry, other keys fall through. -/
lemma lookupStr_foldl_setKeyFun {α : Type} (ent : String → α) :
    ∀ (names : List String) (acc : List (String × α)) (n : String),
      lookupStr (names.foldl (fun a m => setKey a m (ent m)) acc) n
        = if n ∈ names then some (ent n) else lookupStr acc n := by
  intro names
  induction names with
  | nil => intro acc n; simp
  | cons m t ih =>
    intro acc n
    rw [List.foldl_cons, ih]
    by_cases hn : n ∈ t
    · simp [hn]
    · rw [if_neg hn, lookupStr_setKey]
      by_cases hnm : n = m
      · simp [hnm]
      · simp [hnm, hn]

/-- Claim C9 counterexample: a declared path parameter with required
explicitly false is recorded with required true (the source computes
required-or-true), while its mapped type and description are carried over. -/
theorem pathParam_required_counterexample :
    extractPathParameters "/items/{id}" getByIdOp
        = some [("id", { type := "number", required := true, description := some "the id" })] ∧
      idParamNotRequired.required = some false :=
  ⟨rfl, rfl⟩

/-- Claim C9 amended theorem: every brace segment gets an entry; a matching
declared path parameter contributes its mapped type and description but the
recorded required flag is always true (the source's required-or-true); a
segment with no matching declared parameter falls back to type string,
required true, no description. -/
theorem pathParam_entry_characterization (path : String) (op : SwaggerOperation) (n : String)
    (hmem : n ∈ pathBraceNames path) :
    ∃ l, extractPathParameters path op = some l ∧
      lookupStr l n = some (pathParamEntryFor op n) ∧
      (∀ p, (op.parameters.getD []).find? (fun q => q.name == n && q.paramIn == "path") = some p →
        pathParamEntryFor op n =
          { type := getParameterType p, required := true, description := p.description }) ∧
      ((op.parameters.getD []).find? (fun q => q.name == n && q.paramIn == "path") = none →
        pathParamEntryFor op n = { type := "string", required := true, description := none }) := by
  have hne : (pathBraceNames path).isEmpty = false := by
    cases hbn : pathBraceNames path with
    | nil => rw [hbn] at hmem; simp at hmem
    | cons a t => rfl
  set l := (pathBraceNames path).foldl
    (fun acc n' => setKey acc n' (pathParamEntryFor op n')) [] with hldef
  have hlook : lookupStr l n = some (pathParamEntryFor op n) := by
    rw [hldef, lookupStr_foldl_setKeyFun]
    simp [hmem]
  have hlemp : l.isEmpty = false := by
    cases hcl : l with
    | nil => rw [hcl] at hlook; simp [lookupStr] at hlook
    | cons a t => rfl
  refine ⟨l, ?_, hlook, ?_, ?_⟩
  · unfold extractPathParameters
    rw [if_neg (by simp [hne]), if_neg (by simp [hlemp])]
  · intro p hp
    unfold pathParamEntryFor
    rw [hp]
    simp
  · intro hp
    unfold pathParamEntryFor
    rw [hp]

/-- Witness for the amended claim C9 theorem at the concrete operation whose
declared id parameter has required false. -/
theorem pathParam_entry_witness :
    ∃ l, extractPathParameters "/items/{id}" getByIdOp = some l ∧
      lookupStr l "id" = some (pathParamEntryFor getByIdOp "id") ∧
      (∀ p, (getByIdOp.parameters.getD []).find?
            (fun q => q.name == "id" && q.paramIn == "path") = some p →
        pathParamEntryFor getByIdOp "id" =
          { type := getParameterType p, required := true, description := p.description }) ∧
      ((getByIdOp.parameters.getD []).find?
            (fun q => q.name == "id" && q.paramIn == "path") = none →
        pathParamEntryFor getByIdOp "id"
          = { type := "string", required := true, description := none }) :=
  pathParam_entry_characterization "/items/{id}" getByIdOp "id" (by decide)
